import Mathlib

/-!
Shallow embedding of `qualifier/qualifier.py`, a renderer of 2-D data as a
bordered text table, together with proofs of the specified properties.

Modelling conventions:
* Python strings are `List Char` (`Str`); cell values are taken to be the
  strings produced by Python's `str()`, so `str` is the identity here.
  The spec's data model restricts cells to single-line representations.
* List indexing `xs[i]` (with the non-negative indices that occur in the
  source) is `pyGet`, which raises `PyErr.indexError` out of range, modelling
  Python's `IndexError`; fallible code lives in `Except PyErr`.
* `str.center` / `str.rjust` / `str.ljust` are embedded as `pyCenter` /
  `pyRjust` / `pyLjust`, following CPython's semantics (in particular
  `center`'s `left = marg/2 + (marg & width & 1)` placement rule, written
  here with parity tests).
* `str.replace(old, new)` is only used with single-character `old` and `new`,
  where it coincides with the character map `replaceChar`.
* Python's `max(...)` over a generator of ints is `listMax` (fold of `max`
  with base 0); in the source it is only reached with a non-empty generator,
  where the two agree on naturals.
* `int(extra_spaces/2)` truncates the float quotient toward zero; on the
  non-negative integers reachable here (the call sites pass 2) this is
  natural-number division, embedded as `/ 2` on `Nat`.
-/

abbrev Str := List Char

inductive PyErr where
  | indexError
deriving DecidableEq

/-- Python list indexing `xs[i]` for a non-negative index: `IndexError` out of range. -/
def pyGet {α : Type} (xs : List α) (i : Nat) : Except PyErr α :=
  match xs.get? i with
  | some a => Except.ok a
  | none => Except.error PyErr.indexError

/-- A run of ASCII spaces, the fill used by the padding helpers. -/
def spaces (n : Nat) : Str := List.replicate n ' '

/-- Python `max` over a list of ints, as a fold with base 0 (the source only
evaluates it on non-empty lists of naturals, where this is the true maximum). -/
def listMax (l : List Nat) : Nat := l.foldl max 0

/-- A Python list comprehension `[f a for a in l]` over fallible `f`:
elements are produced left to right and the first exception propagates. -/
def pyListComp {α β : Type} : List α → (α → Except PyErr β) → Except PyErr (List β)
  | [], _ => Except.ok []
  | a :: as, f => do
      let b ← f a
      let bs ← pyListComp as f
      pure (b :: bs)

/-- Python `str.center(width, " ")`.  CPython computes
`marg = width - len(s)` and `left = marg/2 + (marg & width & 1)`; the
bit test is written here as a parity test, which is equivalent. -/
def pyCenter (s : Str) (width : Nat) : Str :=
  if width ≤ s.length then s
  else
    let marg := width - s.length
    let left := marg / 2 + (if marg % 2 = 1 ∧ width % 2 = 1 then 1 else 0)
    spaces left ++ s ++ spaces (marg - left)

/-- Python `str.rjust(width, " ")`. -/
def pyRjust (s : Str) (width : Nat) : Str :=
  if width ≤ s.length then s else spaces (width - s.length) ++ s

/-- Python `str.ljust(width, " ")`. -/
def pyLjust (s : Str) (width : Nat) : Str :=
  if width ≤ s.length then s else s ++ spaces (width - s.length)

/-- Python `str.replace(old, new)` specialised to the single-character
`old`/`new` used by the source, where it is a character map. -/
def replaceChar (s : Str) (old new : Char) : Str :=
  s.map (fun c => if c = old then new else c)

/-- Python `s.split("\n")`: the list of newline-separated segments
(one more segment than there are newline characters). -/
def splitNl : Str → List Str
  | [] => [[]]
  | c :: rest =>
      if c = '\n' then [] :: splitNl rest
      else
        match splitNl rest with
        | [] => [[c]]
        | l :: ls => (c :: l) :: ls

/-- Join lines with single newline separators (inverse of `splitNl` on
newline-free lines). -/
def joinNl : List Str → Str
  | [] => []
  | [l] => l
  | l :: ls => l ++ '\n' :: joinNl ls

/-- The border dictionary built in `make_table`, as an immutable record:
horizontal, vertical, then top/middle/bottom left-centre-right junctions. -/
structure Border where
  h : Char
  v : Char
  tl : Char
  tc : Char
  tr : Char
  ml : Char
  mc : Char
  mr : Char
  bl : Char
  bc : Char
  br : Char
deriving DecidableEq

/-- The concrete glyph set of `make_table`'s `border` dictionary. -/
def border : Border :=
  ⟨'─', '│', '┌', '┬', '┐', '├', '┼', '┤', '└', '┴', '┘'⟩

/-- The `EXTRA_SPACES` constant of `make_table`. -/
def EXTRA_SPACES : Nat := 2

/-- `paddedWord(word, max_length, centered, extra_spaces)` (source lines
153-168): pads `word` to `max_length + extra_spaces`, centring it or
right-justifying to `min(extra_spaces/2 + len(word), total)` and then
left-justifying to the total. -/
def paddedWord (word : Str) (max_length : Nat) (centered : Bool) (extra_spaces : Nat) : Str :=
  let total_length := max_length + extra_spaces
  if centered then
    pyCenter word total_length
  else
    pyLjust (pyRjust word (min (extra_spaces / 2 + word.length) total_length)) total_length

/-- `firstLine(col_lengths, border, extra_spaces)` (source lines 78-96):
empty when there are no columns; otherwise the top-left corner, then for each
column a run of horizontal glyphs and a top junction, with the final junction
replaced by the top-right corner (`_line[:-1] + border["tr"]`). -/
def firstLine (col_lengths : List Nat) (b : Border) (extra_spaces : Nat) : Str :=
  if col_lengths.length < 1 then []
  else
    let line := b.tl :: (col_lengths.map
      (fun cl => List.replicate (cl + extra_spaces) b.h ++ [b.tc])).flatten
    line.dropLast ++ [b.tr]

/-- `headerBotLine` (source lines 99-113): `firstLine` with the top glyphs
replaced by the middle ones, replacement by replacement in source order. -/
def headerBotLine (col_lengths : List Nat) (b : Border) (extra_spaces : Nat) : Str :=
  let l1 := firstLine col_lengths b extra_spaces
  let l2 := replaceChar l1 b.tl b.ml
  let l3 := replaceChar l2 b.tc b.mc
  replaceChar l3 b.tr b.mr

/-- The loop body of `wordsLine`: for each column (with its running
`enumerate` index) fetch `words[i]`, pad it, and append a vertical glyph. -/
def wordsLineAux (b : Border) (words : List Str) (centered : Bool)
    (extra_spaces : Nat) : Nat → List Nat → Except PyErr Str
  | _, [] => Except.ok []
  | i, cl :: rest => do
      let word ← pyGet words i
      let tail ← wordsLineAux b words centered extra_spaces (i + 1) rest
      pure (paddedWord word cl centered extra_spaces ++ b.v :: tail)

/-- `wordsLine(col_lengths, border, words, centered, extra_spaces)` (source
lines 115-134): empty when there are no columns; otherwise a vertical glyph,
then each padded word followed by a vertical glyph. -/
def wordsLine (col_lengths : List Nat) (b : Border) (words : List Str)
    (centered : Bool) (extra_spaces : Nat) : Except PyErr Str :=
  if col_lengths.length < 1 then Except.ok []
  else do
    let body ← wordsLineAux b words centered extra_spaces 0 col_lengths
    pure (b.v :: body)

/-- `lastLine` (source lines 137-150): `firstLine` with the top glyphs
replaced by the bottom ones. -/
def lastLine (col_lengths : List Nat) (b : Border) (extra_spaces : Nat) : Str :=
  let l1 := firstLine col_lengths b extra_spaces
  let l2 := replaceChar l1 b.tl b.bl
  let l3 := replaceChar l2 b.tc b.bc
  replaceChar l3 b.tr b.br

/-- `createHeaderLines` (source lines 44-59): the padded label line and the
header-bottom separator, each followed by a newline. -/
def createHeaderLines (labels : List Str) (col_lengths : List Nat) (b : Border)
    (centered : Bool) (extra_spaces : Nat) : Except PyErr Str := do
  let l ← wordsLine col_lengths b labels centered extra_spaces
  pure (l ++ '\n' :: (headerBotLine col_lengths b extra_spaces ++ ['\n']))

/-- `createWordsLines` (source lines 61-76): one padded line per data row,
each followed by a newline. -/
def createWordsLines (wordsTable : List (List Str)) (col_lengths : List Nat)
    (b : Border) (centered : Bool) (extra_spaces : Nat) : Except PyErr Str :=
  match wordsTable with
  | [] => Except.ok []
  | row :: rest => do
      let l ← wordsLine col_lengths b row centered extra_spaces
      let ls ← createWordsLines rest col_lengths b centered extra_spaces
      pure (l ++ '\n' :: ls)

/-- Line 17 of the source: `labels`' rendered lengths when supplied, else a
zero for each column. -/
def labelsLength (labels : Option (List Str)) (max_columns : Nat) : List Nat :=
  match labels with
  | some ls => ls.map List.length
  | none => List.replicate max_columns 0

/-- Line 16 of the source:
`[max(len(str(row[i])) for row in rows) for i in range(MAX_COLUMNS)]`. -/
def colLengths0 (rows : List (List Str)) (max_columns : Nat) : Except PyErr (List Nat) :=
  pyListComp (List.range max_columns) (fun i => do
    let lens ← pyListComp rows (fun row => do
      let cell ← pyGet row i
      pure cell.length)
    pure (listMax lens))

/-- Lines 14-18 of `make_table`: the per-column width computation, reading
`MAX_COLUMNS` from `rows[0]` and folding in the label lengths
(`COL_LENGTHS = [max(COL_LENGTHS[i], labels_length[i]) for i in range(MAX_COLUMNS)]`). -/
def colWidths (rows : List (List Str)) (labels : Option (List Str)) :
    Except PyErr (List Nat) := do
  let row0 ← pyGet rows 0
  let max_columns := row0.length
  let base ← colLengths0 rows max_columns
  let ll := labelsLength labels max_columns
  pyListComp (List.range max_columns) (fun i => do
    let a ← pyGet base i
    let b ← pyGet ll i
    pure (max a b))

/-- `make_table(rows, labels=None, centered=False)` (source lines 4-38):
column widths, then the top border and a newline, the header lines when
`labels` is present and non-empty, one line per data row, and the bottom
border with no trailing newline. -/
def make_table (rows : List (List Str)) (labels : Option (List Str))
    (centered : Bool) : Except PyErr Str := do
  let col_lengths ← colWidths rows labels
  let t1 := firstLine col_lengths border EXTRA_SPACES ++ ['\n']
  let t2 ← match labels with
    | some ls =>
        if 0 < ls.length then do
          let h ← createHeaderLines ls col_lengths border centered EXTRA_SPACES
          pure (t1 ++ h)
        else pure t1
    | none => pure t1
  let w ← createWordsLines rows col_lengths border centered EXTRA_SPACES
  pure (t2 ++ w ++ lastLine col_lengths border EXTRA_SPACES)

/-! Total companions of the fallible pieces, used to state what the
successful runs produce, plus the spec-side definitions the refinement
claims compare against. -/

/-- Total version of the `wordsLine` loop body: out-of-range words read as
the empty string (the fallible and total versions agree whenever every index
is in range). -/
def wordsLineDAux (b : Border) (words : List Str) (centered : Bool)
    (extra_spaces : Nat) : Nat → List Nat → Str
  | _, [] => []
  | i, cl :: rest =>
      paddedWord (words.getD i []) cl centered extra_spaces ++
        b.v :: wordsLineDAux b words centered extra_spaces (i + 1) rest

/-- Total version of `wordsLine`. -/
def wordsLineD (col_lengths : List Nat) (b : Border) (words : List Str)
    (centered : Bool) (extra_spaces : Nat) : Str :=
  if col_lengths.length < 1 then []
  else b.v :: wordsLineDAux b words centered extra_spaces 0 col_lengths

/-- The rendered length of the label for column `i`: zero when no labels are
supplied. -/
def labelLen (labels : Option (List Str)) (i : Nat) : Nat :=
  match labels with
  | none => 0
  | some ls => (ls.getD i []).length

/-- The widest cell of column `i` over all rows. -/
def colMax (rows : List (List Str)) (i : Nat) : Nat :=
  listMax (rows.map (fun r => (r.getD i []).length))

/-- The column widths a successful run of `colWidths` computes: for each of
`rows[0]`'s columns, the widest cell, folded with the label's length. -/
def widthsD (rows : List (List Str)) (labels : Option (List Str)) : List Nat :=
  (List.range (rows.getD 0 []).length).map
    (fun i => max (colMax rows i) (labelLen labels i))

/-- The common character length of every emitted line: zero with no columns,
otherwise one leading glyph plus `width + EXTRA_SPACES + 1` per column. -/
def lineWidth (col_lengths : List Nat) (extra_spaces : Nat) : Nat :=
  if col_lengths.length = 0 then 0
  else 1 + (col_lengths.map (fun cl => cl + extra_spaces + 1)).sum

/-- The lines a successful `make_table` run emits, in order: top border,
header lines when non-empty labels are supplied, one line per data row, and
the bottom border. -/
def tableLines (rows : List (List Str)) (labels : Option (List Str))
    (centered : Bool) (W : List Nat) : List Str :=
  firstLine W border EXTRA_SPACES ::
    ((match labels with
      | some ls =>
          if 0 < ls.length then
            [wordsLineD W border ls centered EXTRA_SPACES,
             headerBotLine W border EXTRA_SPACES]
          else []
      | none => []) ++
     rows.map (fun r => wordsLineD W border r centered EXTRA_SPACES) ++
     [lastLine W border EXTRA_SPACES])

/-- Modelled from the spec (claim C3's reading of the centering rule): the
word centred in `width`, with the extra space of an odd margin always on the
right (trailing) side. -/
def specCenterRight (word : Str) (width : Nat) : Str :=
  let marg := width - word.length
  spaces (marg / 2) ++ word ++ spaces (marg - marg / 2)

/-- Modelled from the spec (§4.1 left-alignment policy): right-justify the
word to `min(extra_spaces/2 + len(word), column_width + extra_spaces)`, then
left-justify the result to `column_width + extra_spaces`. -/
def specLeftPad (word : Str) (column_width extra_spaces : Nat) : Str :=
  let target := column_width + extra_spaces
  pyLjust (pyRjust word (min (extra_spaces / 2 + word.length) target)) target

/-! ### Basic lemmas about the Python primitives -/

theorem bind_ok {α β : Type} (a : α) (f : α → Except PyErr β) :
    (Except.ok a >>= f) = f a := rfl

theorem bind_error {α β : Type} (e : PyErr) (f : α → Except PyErr β) :
    ((Except.error e : Except PyErr α) >>= f) = Except.error e := rfl

theorem pyGet_ok {α : Type} (xs : List α) (i : Nat) (d : α) (h : i < xs.length) :
    pyGet xs i = Except.ok (xs.getD i d) := by
  induction xs generalizing i with
  | nil => simp at h
  | cons a as ih =>
    cases i with
    | zero => rfl
    | succ n =>
      have h' : n < as.length := by simpa using h
      simpa [pyGet, List.get?, List.getD] using ih n h'

theorem pyGet_err {α : Type} (xs : List α) (i : Nat) (h : xs.length ≤ i) :
    pyGet xs i = Except.error PyErr.indexError := by
  unfold pyGet
  rw [List.get?_eq_none.mpr h]

theorem pyListComp_ok {α β : Type} (l : List α) (f : α → Except PyErr β)
    (g : α → β) (h : ∀ a ∈ l, f a = Except.ok (g a)) :
    pyListComp l f = Except.ok (l.map g) := by
  induction l with
  | nil => rfl
  | cons a as ih =>
    rw [pyListComp, h a (List.mem_cons_self a as), bind_ok,
      ih (fun x hx => h x (List.mem_cons_of_mem a hx)), bind_ok]
    rfl

theorem le_foldl_max (l : List Nat) (b : Nat) : b ≤ l.foldl max b := by
  induction l generalizing b with
  | nil => exact Nat.le_refl b
  | cons a as ih => exact Nat.le_trans (Nat.le_max_left b a) (ih (max b a))

theorem le_listMax_of_mem {a : Nat} {l : List Nat} (h : a ∈ l) : a ≤ listMax l := by
  unfold listMax
  generalize 0 = b
  induction l generalizing b with
  | nil => simp at h
  | cons x xs ih =>
    rcases List.mem_cons.mp h with rfl | h'
    · exact Nat.le_trans (Nat.le_max_right b a) (le_foldl_max xs (max b a))
    · exact ih h' (max b x)

theorem getD_map_range {β : Type} (n i : Nat) (f : Nat → β) (d : β) (h : i < n) :
    ((List.range n).map f).getD i d = f i := by
  rw [List.getD_eq_getElem?_getD, List.getElem?_map, List.getElem?_range h]
  rfl

theorem spaces_length (n : Nat) : (spaces n).length = n := by
  simp [spaces]

theorem nl_not_mem_spaces (n : Nat) : '\n' ∉ spaces n := by
  intro h
  have := List.eq_of_mem_replicate h
  simp at this

/-! ### Lengths of the padding primitives -/

theorem pyRjust_length (s : Str) (w : Nat) : (pyRjust s w).length = max s.length w := by
  unfold pyRjust
  by_cases h : w ≤ s.length
  · simp [h, Nat.max_eq_left h]
  · have h' : s.length ≤ w := Nat.le_of_lt (Nat.lt_of_not_le h)
    simp [h, spaces_length, Nat.max_eq_right h']
    omega

theorem pyLjust_length (s : Str) (w : Nat) : (pyLjust s w).length = max s.length w := by
  unfold pyLjust
  by_cases h : w ≤ s.length
  · simp [h, Nat.max_eq_left h]
  · have h' : s.length ≤ w := Nat.le_of_lt (Nat.lt_of_not_le h)
    simp [h, spaces_length, Nat.max_eq_right h']
    omega

theorem pyCenter_length (s : Str) (w : Nat) (h : s.length ≤ w) :
    (pyCenter s w).length = w := by
  unfold pyCenter
  by_cases hw : w ≤ s.length
  · simp [hw]
    omega
  · have hlt : s.length < w := Nat.lt_of_not_le hw
    simp only [hw, if_false, List.length_append, spaces_length]
    split <;> omega

theorem paddedWord_length (word : Str) (m : Nat) (c : Bool) (e : Nat)
    (h : word.length ≤ m + e) : (paddedWord word m c e).length = m + e := by
  unfold paddedWord
  cases c with
  | true => simpa using pyCenter_length word (m + e) h
  | false =>
    simp only [Bool.false_eq_true, if_false, pyLjust_length, pyRjust_length]
    omega

/-! ### Characters occurring in the padding primitives -/

theorem mem_pyCenter {c : Char} {s : Str} {w : Nat} (h : c ∈ pyCenter s w) :
    c ∈ s ∨ c = ' ' := by
  unfold pyCenter at h
  split at h
  · exact Or.inl h
  · simp only [List.mem_append] at h
    rcases h with (h | h) | h
    · exact Or.inr (List.eq_of_mem_replicate h)
    · exact Or.inl h
    · exact Or.inr (List.eq_of_mem_replicate h)

theorem mem_pyRjust {c : Char} {s : Str} {w : Nat} (h : c ∈ pyRjust s w) :
    c ∈ s ∨ c = ' ' := by
  unfold pyRjust at h
  split at h
  · exact Or.inl h
  · rcases List.mem_append.mp h with h | h
    · exact Or.inr (List.eq_of_mem_replicate h)
    · exact Or.inl h

theorem mem_pyLjust {c : Char} {s : Str} {w : Nat} (h : c ∈ pyLjust s w) :
    c ∈ s ∨ c = ' ' := by
  unfold pyLjust at h
  split at h
  · exact Or.inl h
  · rcases List.mem_append.mp h with h | h
    · exact Or.inl h
    · exact Or.inr (List.eq_of_mem_replicate h)

theorem mem_paddedWord {c : Char} {word : Str} {m : Nat} {ctr : Bool} {e : Nat}
    (h : c ∈ paddedWord word m ctr e) : c ∈ word ∨ c = ' ' := by
  unfold paddedWord at h
  split at h
  · exact mem_pyCenter h
  · rcases mem_pyLjust h with h' | h'
    · rcases mem_pyRjust h' with h'' | h''
      · exact Or.inl h''
      · exact Or.inr h''
    · exact Or.inr h'

/-! ### The border lines: length and characters -/

theorem firstLine_length (cl : List Nat) (b : Border) (e : Nat) :
    (firstLine cl b e).length = lineWidth cl e := by
  unfold firstLine lineWidth
  by_cases h : cl.length < 1
  · have : cl.length = 0 := by omega
    simp [h, this]
  · have hne : cl ≠ [] := by
      intro hc
      exact h (by simp [hc])
    simp only [h, if_false]
    have hlen : cl.length = 0 ↔ False := by
      constructor
      · intro hc
        exact hne (List.length_eq_zero.mp hc)
      · intro hc
        exact hc.elim
    simp only [List.length_append, List.length_dropLast, List.length_cons,
      List.length_flatten, List.length_map, hlen, if_false]
    have : (List.map List.length
        (List.map (fun cl => List.replicate (cl + e) b.h ++ [b.tc]) cl)).sum
        = (cl.map (fun c => c + e + 1)).sum := by
      rw [List.map_map]
      congr 1
      apply List.map_congr_left
      intro a _
      simp
    rw [this]
    simp
    omega

theorem replaceChar_length (s : Str) (o n : Char) :
    (replaceChar s o n).length = s.length := by
  simp [replaceChar]

theorem headerBotLine_length (cl : List Nat) (b : Border) (e : Nat) :
    (headerBotLine cl b e).length = lineWidth cl e := by
  unfold headerBotLine
  rw [replaceChar_length, replaceChar_length, replaceChar_length, firstLine_length]

theorem lastLine_length (cl : List Nat) (b : Border) (e : Nat) :
    (lastLine cl b e).length = lineWidth cl e := by
  unfold lastLine
  rw [replaceChar_length, replaceChar_length, replaceChar_length, firstLine_length]

theorem mem_firstLine {c : Char} {cl : List Nat} {b : Border} {e : Nat}
    (h : c ∈ firstLine cl b e) : c = b.tl ∨ c = b.h ∨ c = b.tc ∨ c = b.tr := by
  unfold firstLine at h
  split at h
  · simp at h
  · rcases List.mem_append.mp h with h | h
    · have h' := List.dropLast_subset _ h
      rcases List.mem_cons.mp h' with h'' | h''
      · exact Or.inl h''
      · simp only [List.mem_flatten, List.mem_map] at h''
        obtain ⟨l, ⟨a, _, rfl⟩, hmem⟩ := h''
        rcases List.mem_append.mp hmem with h3 | h3
        · exact Or.inr (Or.inl (List.eq_of_mem_replicate h3))
        · simp at h3
          exact Or.inr (Or.inr (Or.inl h3))
    · simp at h
      exact Or.inr (Or.inr (Or.inr h))

theorem mem_replaceChar {c : Char} {s : Str} {o n : Char}
    (h : c ∈ replaceChar s o n) : c ∈ s ∨ c = n := by
  unfold replaceChar at h
  rcases List.mem_map.mp h with ⟨d, hd, hdc⟩
  by_cases hdo : d = o
  · simp [hdo] at hdc
    exact Or.inr hdc.symm
  · simp [hdo] at hdc
    exact Or.inl (hdc ▸ hd)

theorem mem_headerBotLine {c : Char} {cl : List Nat} {b : Border} {e : Nat}
    (h : c ∈ headerBotLine cl b e) :
    c = b.ml ∨ c = b.mc ∨ c = b.mr ∨ c = b.tl ∨ c = b.h ∨ c = b.tc ∨ c = b.tr := by
  unfold headerBotLine at h
  rcases mem_replaceChar h with h | h
  · rcases mem_replaceChar h with h | h
    · rcases mem_replaceChar h with h | h
      · rcases mem_firstLine h with h | h | h | h
        · exact Or.inr (Or.inr (Or.inr (Or.inl h)))
        · exact Or.inr (Or.inr (Or.inr (Or.inr (Or.inl h))))
        · exact Or.inr (Or.inr (Or.inr (Or.inr (Or.inr (Or.inl h)))))
        · exact Or.inr (Or.inr (Or.inr (Or.inr (Or.inr (Or.inr h)))))
      · exact Or.inl h
    · exact Or.inr (Or.inl h)
  · exact Or.inr (Or.inr (Or.inl h))

theorem mem_lastLine {c : Char} {cl : List Nat} {b : Border} {e : Nat}
    (h : c ∈ lastLine cl b e) :
    c = b.bl ∨ c = b.bc ∨ c = b.br ∨ c = b.tl ∨ c = b.h ∨ c = b.tc ∨ c = b.tr := by
  unfold lastLine at h
  rcases mem_replaceChar h with h | h
  · rcases mem_replaceChar h with h | h
    · rcases mem_replaceChar h with h | h
      · rcases mem_firstLine h with h | h | h | h
        · exact Or.inr (Or.inr (Or.inr (Or.inl h)))
        · exact Or.inr (Or.inr (Or.inr (Or.inr (Or.inl h))))
        · exact Or.inr (Or.inr (Or.inr (Or.inr (Or.inr (Or.inl h)))))
        · exact Or.inr (Or.inr (Or.inr (Or.inr (Or.inr (Or.inr h)))))
      · exact Or.inl h
    · exact Or.inr (Or.inl h)
  · exact Or.inr (Or.inr (Or.inl h))

/-! ### The words line: success, length and characters -/

theorem wordsLineAux_ok (b : Border) (words : List Str) (ctr : Bool) (e : Nat)
    (cl : List Nat) (i : Nat) (h : i + cl.length ≤ words.length) :
    wordsLineAux b words ctr e i cl =
      Except.ok (wordsLineDAux b words ctr e i cl) := by
  induction cl generalizing i with
  | nil => rfl
  | cons c rest ih =>
    have hi : i < words.length := by
      simp only [List.length_cons] at h
      omega
    have hrest : (i + 1) + rest.length ≤ words.length := by
      simp only [List.length_cons] at h
      omega
    rw [wordsLineAux, pyGet_ok words i [] hi, bind_ok, ih (i + 1) hrest, bind_ok]
    rfl

theorem wordsLine_ok (cl : List Nat) (b : Border) (words : List Str)
    (ctr : Bool) (e : Nat) (h : cl.length ≤ words.length) :
    wordsLine cl b words ctr e = Except.ok (wordsLineD cl b words ctr e) := by
  unfold wordsLine wordsLineD
  by_cases hc : cl.length < 1
  · simp [hc]
  · simp only [hc, if_false]
    rw [wordsLineAux_ok b words ctr e cl 0 (by omega), bind_ok]
    rfl

theorem wordsLineDAux_length (b : Border) (words : List Str) (ctr : Bool)
    (e : Nat) (cl : List Nat) (i : Nat)
    (h : ∀ j, j < cl.length → (words.getD (i + j) []).length ≤ cl.getD j 0 + e) :
    (wordsLineDAux b words ctr e i cl).length =
      (cl.map (fun c => c + e + 1)).sum := by
  induction cl generalizing i with
  | nil => rfl
  | cons c rest ih =>
    have h0 : (words.getD i []).length ≤ c + e := by
      have := h 0 (by simp)
      simpa using this
    have hrest : ∀ j, j < rest.length →
        (words.getD (i + 1 + j) []).length ≤ rest.getD j 0 + e := by
      intro j hj
      have := h (j + 1) (by simp; omega)
      simpa [Nat.add_assoc, Nat.add_comm 1 j] using this
    rw [wordsLineDAux]
    simp only [List.length_append, List.length_cons,
      paddedWord_length _ _ _ _ h0, ih (i + 1) hrest, List.map_cons, List.sum_cons]
    omega

theorem wordsLineD_length (cl : List Nat) (b : Border) (words : List Str)
    (ctr : Bool) (e : Nat)
    (h : ∀ j, j < cl.length → (words.getD j []).length ≤ cl.getD j 0 + e) :
    (wordsLineD cl b words ctr e).length = lineWidth cl e := by
  unfold wordsLineD lineWidth
  by_cases hc : cl.length < 1
  · have : cl.length = 0 := by omega
    simp [hc, this]
  · have hne : cl.length = 0 ↔ False := by
      constructor
      · intro hc0
        omega
      · intro hc0
        exact hc0.elim
    simp only [hc, if_false, hne, List.length_cons]
    rw [wordsLineDAux_length b words ctr e cl 0 (by simpa using h)]
    omega

theorem mem_wordsLineDAux {c : Char} {b : Border} {words : List Str}
    {ctr : Bool} {e : Nat} {cl : List Nat} {i : Nat}
    (h : c ∈ wordsLineDAux b words ctr e i cl) :
    c = b.v ∨ c = ' ' ∨ ∃ w ∈ words, c ∈ w := by
  induction cl generalizing i with
  | nil => simp [wordsLineDAux] at h
  | cons x rest ih =>
    rw [wordsLineDAux] at h
    rcases List.mem_append.mp h with h' | h'
    · rcases mem_paddedWord h' with h'' | h''
      · right
        right
        by_cases hw : i < words.length
        · refine ⟨words.getD i [], ?_, h''⟩
          rw [List.getD_eq_getElem?_getD, List.getElem?_eq_getElem hw]
          exact List.getElem_mem hw
        · rw [List.getD_eq_getElem?_getD, List.getElem?_eq_none (by omega)] at h''
          simp at h''
      · exact Or.inr (Or.inl h'')
    · rcases List.mem_cons.mp h' with h'' | h''
      · exact Or.inl h''
      · exact ih h''

theorem mem_wordsLineD {c : Char} {cl : List Nat} {b : Border} {words : List Str}
    {ctr : Bool} {e : Nat} (h : c ∈ wordsLineD cl b words ctr e) :
    c = b.v ∨ c = ' ' ∨ ∃ w ∈ words, c ∈ w := by
  unfold wordsLineD at h
  split at h
  · simp at h
  · rcases List.mem_cons.mp h with h' | h'
    · exact Or.inl h'
    · exact mem_wordsLineDAux h'

/-! ### The width computation -/

theorem getD_map_length (ls : List Str) (i : Nat) (h : i < ls.length) :
    (ls.map List.length).getD i 0 = (ls.getD i []).length := by
  rw [List.getD_eq_getElem?_getD, List.getElem?_map, List.getElem?_eq_getElem h,
    List.getD_eq_getElem?_getD, List.getElem?_eq_getElem h]
  rfl

theorem cell_le_colMax (rows : List (List Str)) (r : List Str) (hr : r ∈ rows)
    (j : Nat) : (r.getD j []).length ≤ colMax rows j :=
  le_listMax_of_mem (List.mem_map.mpr ⟨r, hr, rfl⟩)

theorem widthsD_length (rows : List (List Str)) (labels : Option (List Str)) :
    (widthsD rows labels).length = (rows.getD 0 []).length := by
  simp [widthsD]

theorem widthsD_getD (rows : List (List Str)) (labels : Option (List Str))
    (j : Nat) (hj : j < (rows.getD 0 []).length) :
    (widthsD rows labels).getD j 0 = max (colMax rows j) (labelLen labels j) := by
  unfold widthsD
  exact getD_map_range _ j _ 0 hj

theorem colLengths0_ok (rows : List (List Str)) (n : Nat)
    (h : ∀ r ∈ rows, n ≤ r.length) :
    colLengths0 rows n = Except.ok ((List.range n).map (fun i => colMax rows i)) := by
  unfold colLengths0
  apply pyListComp_ok
  intro i hi
  have hi' : i < n := List.mem_range.mp hi
  rw [pyListComp_ok rows _ (fun r => (r.getD i []).length) ?_, bind_ok]
  · rfl
  · intro r hr
    rw [pyGet_ok r i [] (Nat.lt_of_lt_of_le hi' (h r hr)), bind_ok]
    rfl

theorem colWidths_ok (r0 : List Str) (rest : List (List Str))
    (labels : Option (List Str))
    (hrect : ∀ r ∈ r0 :: rest, r.length = r0.length)
    (hlab : ∀ ls, labels = some ls → ls.length = r0.length) :
    colWidths (r0 :: rest) labels = Except.ok (widthsD (r0 :: rest) labels) := by
  unfold colWidths
  have h0 : pyGet (r0 :: rest) 0 = Except.ok r0 := rfl
  rw [h0, bind_ok]
  dsimp only
  rw [colLengths0_ok (r0 :: rest) r0.length
    (fun r hr => Nat.le_of_eq (hrect r hr).symm), bind_ok]
  unfold widthsD
  simp only [List.getD]
  apply pyListComp_ok
  intro i hi
  have hi' : i < r0.length := List.mem_range.mp hi
  rw [pyGet_ok _ i 0 (by simpa using hi'), bind_ok, getD_map_range _ i _ 0 hi']
  cases labels with
  | none =>
    have : pyGet (labelsLength none r0.length) i = Except.ok 0 := by
      rw [pyGet_ok _ i 0 (by simp [labelsLength]; omega)]
      congr 1
      simp [labelsLength]
    rw [this, bind_ok]
    rfl
  | some ls =>
    have hls : ls.length = r0.length := hlab ls rfl
    have : pyGet (labelsLength (some ls) r0.length) i =
        Except.ok ((ls.getD i []).length) := by
      rw [pyGet_ok _ i 0 (by simp [labelsLength]; omega)]
      congr 1
      simp only [labelsLength]
      exact getD_map_length ls i (by omega)
    rw [this, bind_ok]
    rfl

/-! ### Assembling the table -/

theorem createWordsLines_ok (rows : List (List Str)) (cl : List Nat)
    (b : Border) (ctr : Bool) (e : Nat)
    (h : ∀ r ∈ rows, cl.length ≤ r.length) :
    createWordsLines rows cl b ctr e =
      Except.ok ((rows.map (fun r => wordsLineD cl b r ctr e ++ ['\n'])).flatten) := by
  induction rows with
  | nil => rfl
  | cons r rs ih =>
    rw [createWordsLines, wordsLine_ok cl b r ctr e (h r (List.mem_cons_self r rs)),
      bind_ok, ih (fun x hx => h x (List.mem_cons_of_mem r hx)), bind_ok]
    show Except.ok _ = Except.ok _
    simp

theorem createHeaderLines_ok (labels : List Str) (cl : List Nat) (b : Border)
    (ctr : Bool) (e : Nat) (h : cl.length ≤ labels.length) :
    createHeaderLines labels cl b ctr e =
      Except.ok (wordsLineD cl b labels ctr e ++
        '\n' :: (headerBotLine cl b e ++ ['\n'])) := by
  rw [createHeaderLines, wordsLine_ok cl b labels ctr e h, bind_ok]
  rfl

/-! ### Splitting and joining on newlines -/

theorem splitNl_no_nl (a : Str) (h : '\n' ∉ a) : splitNl a = [a] := by
  induction a with
  | nil => rfl
  | cons c rest ih =>
    have hc : ¬ c = '\n' := fun hc => h (by simp [hc])
    have hrest : '\n' ∉ rest := fun hr => h (List.mem_cons_of_mem c hr)
    rw [splitNl, if_neg hc, ih hrest]

theorem splitNl_append (a s : Str) (h : '\n' ∉ a) :
    splitNl (a ++ '\n' :: s) = a :: splitNl s := by
  induction a with
  | nil =>
    show splitNl ('\n' :: s) = [] :: splitNl s
    rw [splitNl, if_pos rfl]
  | cons c rest ih =>
    have hc : ¬ c = '\n' := fun hc => h (by simp [hc])
    have hrest : '\n' ∉ rest := fun hr => h (List.mem_cons_of_mem c hr)
    rw [List.cons_append, splitNl, if_neg hc, ih hrest]

theorem splitNl_joinNl (ls : List Str) (h : ls ≠ [])
    (hnl : ∀ l ∈ ls, '\n' ∉ l) : splitNl (joinNl ls) = ls := by
  induction ls with
  | nil => exact absurd rfl h
  | cons a as ih =>
    cases as with
    | nil =>
      show splitNl a = [a]
      exact splitNl_no_nl a (hnl a (List.mem_cons_self a []))
    | cons b bs =>
      have : joinNl (a :: b :: bs) = a ++ '\n' :: joinNl (b :: bs) := rfl
      rw [this, splitNl_append a _ (hnl a (List.mem_cons_self a _)),
        ih (by simp) (fun l hl => hnl l (List.mem_cons_of_mem a hl))]

theorem joinNl_concat (ls : List Str) (x : Str) :
    joinNl (ls ++ [x]) = (ls.map (fun l => l ++ ['\n'])).flatten ++ x := by
  induction ls with
  | nil => rfl
  | cons a as ih =>
    cases as with
    | nil => simp [joinNl]
    | cons b bs =>
      have : joinNl (a :: (b :: bs) ++ [x]) =
          a ++ '\n' :: joinNl ((b :: bs) ++ [x]) := rfl
      rw [List.cons_append] at this ⊢
      rw [this, ih]
      simp

theorem bind_pure_ok {α β : Type} (a : α) (f : α → Except PyErr β) :
    ((pure a : Except PyErr α) >>= f) = f a := rfl

theorem joinNl_cons_ne (a : Str) (ls : List Str) (h : ls ≠ []) :
    joinNl (a :: ls) = a ++ '\n' :: joinNl ls := by
  cases ls with
  | nil => exact absurd rfl h
  | cons b bs => rfl

/-- Master lemma: on a non-empty rectangular input whose labels (when
supplied) match the width of `rows[0]`, `make_table` succeeds and returns
exactly the newline-join of `tableLines` over the computed widths. -/
theorem make_table_ok (r0 : List Str) (rest : List (List Str))
    (labels : Option (List Str)) (c : Bool)
    (hrect : ∀ r ∈ r0 :: rest, r.length = r0.length)
    (hlab : ∀ ls, labels = some ls → ls.length = r0.length) :
    make_table (r0 :: rest) labels c =
      Except.ok (joinNl
        (tableLines (r0 :: rest) labels c (widthsD (r0 :: rest) labels))) := by
  have hW : (widthsD (r0 :: rest) labels).length = r0.length := by
    rw [widthsD_length]
    rfl
  have hWle : ∀ r ∈ r0 :: rest, (widthsD (r0 :: rest) labels).length ≤ r.length := by
    intro r hr
    rw [hW, hrect r hr]
  unfold make_table
  rw [colWidths_ok r0 rest labels hrect hlab, bind_ok]
  cases labels with
  | none =>
    dsimp only
    rw [bind_pure_ok, createWordsLines_ok (r0 :: rest) _ border c EXTRA_SPACES hWle,
      bind_ok]
    refine congrArg Except.ok ?_
    rw [tableLines, List.nil_append, List.map_cons,
      joinNl_cons_ne _ _ (by simp), joinNl_concat]
    simp [List.map_map, Function.comp_def]
  | some ls =>
    by_cases hpos : 0 < ls.length
    · have hlsW : (widthsD (r0 :: rest) (some ls)).length ≤ ls.length := by
        rw [hW, hlab ls rfl]
      dsimp only
      rw [if_pos hpos, createHeaderLines_ok ls _ border c EXTRA_SPACES hlsW,
        bind_ok, bind_pure_ok,
        createWordsLines_ok (r0 :: rest) _ border c EXTRA_SPACES hWle, bind_ok]
      refine congrArg Except.ok ?_
      rw [tableLines, if_pos hpos]
      simp only [List.cons_append, List.nil_append]
      rw [List.map_cons, joinNl_cons_ne _ _ (by simp),
        joinNl_cons_ne _ _ (by simp), joinNl_cons_ne _ _ (by simp),
        joinNl_concat]
      simp [List.map_map, Function.comp_def]
    · dsimp only
      rw [if_neg hpos, bind_pure_ok,
        createWordsLines_ok (r0 :: rest) _ border c EXTRA_SPACES hWle, bind_ok]
      refine congrArg Except.ok ?_
      rw [tableLines, if_neg hpos, List.nil_append, List.map_cons,
        joinNl_cons_ne _ _ (by simp), joinNl_concat]
      simp [List.map_map, Function.comp_def]

/-! ### Properties of the emitted lines -/

theorem nl_not_mem_firstLine (cl : List Nat) (e : Nat) :
    '\n' ∉ firstLine cl border e := by
  intro h
  rcases mem_firstLine h with h | h | h | h <;> exact absurd h (by decide)

theorem nl_not_mem_headerBotLine (cl : List Nat) (e : Nat) :
    '\n' ∉ headerBotLine cl border e := by
  intro h
  rcases mem_headerBotLine h with h | h | h | h | h | h | h <;>
    exact absurd h (by decide)

theorem nl_not_mem_lastLine (cl : List Nat) (e : Nat) :
    '\n' ∉ lastLine cl border e := by
  intro h
  rcases mem_lastLine h with h | h | h | h | h | h | h <;>
    exact absurd h (by decide)

theorem nl_not_mem_wordsLineD (cl : List Nat) (words : List Str) (ctr : Bool)
    (e : Nat) (h : ∀ w ∈ words, '\n' ∉ w) :
    '\n' ∉ wordsLineD cl border words ctr e := by
  intro hm
  rcases mem_wordsLineD hm with h1 | h1 | ⟨w, hw, hcw⟩
  · exact absurd h1 (by decide)
  · exact absurd h1 (by decide)
  · exact h w hw hcw

theorem tableLines_no_nl (rows : List (List Str)) (labels : Option (List Str))
    (ctr : Bool) (W : List Nat)
    (hc : ∀ r ∈ rows, ∀ cell ∈ r, '\n' ∉ cell)
    (hl : ∀ ls, labels = some ls → ∀ l ∈ ls, '\n' ∉ l) :
    ∀ l ∈ tableLines rows labels ctr W, '\n' ∉ l := by
  intro l hmem
  unfold tableLines at hmem
  rcases List.mem_cons.mp hmem with rfl | hmem
  · exact nl_not_mem_firstLine W EXTRA_SPACES
  · rcases List.mem_append.mp hmem with h1 | h1
    · rcases List.mem_append.mp h1 with h2 | h2
      · cases labels with
        | none => simp at h2
        | some ls =>
          dsimp only at h2
          by_cases hpos : 0 < ls.length
          · rw [if_pos hpos] at h2
            rcases List.mem_cons.mp h2 with rfl | h3
            · exact nl_not_mem_wordsLineD W ls ctr EXTRA_SPACES (hl ls rfl)
            · rcases List.mem_cons.mp h3 with rfl | h4
              · exact nl_not_mem_headerBotLine W EXTRA_SPACES
              · simp at h4
          · rw [if_neg hpos] at h2
            simp at h2
      · rcases List.mem_map.mp h2 with ⟨r, hr, rfl⟩
        exact nl_not_mem_wordsLineD W r ctr EXTRA_SPACES (hc r hr)
    · rcases List.mem_singleton.mp h1 with rfl
      exact nl_not_mem_lastLine W EXTRA_SPACES

theorem tableLines_length (rows : List (List Str)) (labels : Option (List Str))
    (ctr : Bool) (W : List Nat) :
    (tableLines rows labels ctr W).length =
      rows.length + 2 +
        (match labels with
         | some ls => if 0 < ls.length then 2 else 0
         | none => 0) := by
  unfold tableLines
  cases labels with
  | none => simp
  | some ls =>
    dsimp only
    by_cases hpos : 0 < ls.length
    · simp [if_pos hpos]
    · simp [if_neg hpos]

theorem tableLines_uniform (rows : List (List Str)) (labels : Option (List Str))
    (ctr : Bool) :
    ∀ l ∈ tableLines rows labels ctr (widthsD rows labels),
      l.length = lineWidth (widthsD rows labels) EXTRA_SPACES := by
  intro l hmem
  have hrow : ∀ r ∈ rows,
      (wordsLineD (widthsD rows labels) border r ctr EXTRA_SPACES).length =
        lineWidth (widthsD rows labels) EXTRA_SPACES := by
    intro r hr
    apply wordsLineD_length
    intro j hj
    have hj' : j < (rows.getD 0 []).length := by
      rw [widthsD_length] at hj
      exact hj
    rw [widthsD_getD rows labels j hj']
    have := cell_le_colMax rows r hr j
    omega
  unfold tableLines at hmem
  rcases List.mem_cons.mp hmem with rfl | hmem
  · exact firstLine_length _ _ _
  · rcases List.mem_append.mp hmem with h1 | h1
    · rcases List.mem_append.mp h1 with h2 | h2
      · cases labels with
        | none => simp at h2
        | some ls =>
          dsimp only at h2
          by_cases hpos : 0 < ls.length
          · rw [if_pos hpos] at h2
            rcases List.mem_cons.mp h2 with rfl | h3
            · apply wordsLineD_length
              intro j hj
              have hj' : j < (rows.getD 0 []).length := by
                rw [widthsD_length] at hj
                exact hj
              rw [widthsD_getD rows (some ls) j hj']
              have : (ls.getD j []).length = labelLen (some ls) j := rfl
              omega
            · rcases List.mem_cons.mp h3 with rfl | h4
              · exact headerBotLine_length _ _ _
              · simp at h4
          · rw [if_neg hpos] at h2
            simp at h2
      · rcases List.mem_map.mp h2 with ⟨r, hr, rfl⟩
        exact hrow r hr
    · rcases List.mem_singleton.mp h1 with rfl
      exact lastLine_length _ _ _

theorem tableLines_ne_nil (rows : List (List Str)) (labels : Option (List Str))
    (ctr : Bool) (W : List Nat) : tableLines rows labels ctr W ≠ [] := by
  unfold tableLines
  exact List.cons_ne_nil _ _

theorem tableLines_eq_concat (rows : List (List Str)) (labels : Option (List Str))
    (ctr : Bool) (W : List Nat) :
    tableLines rows labels ctr W =
      (firstLine W border EXTRA_SPACES ::
        ((match labels with
          | some ls =>
              if 0 < ls.length then
                [wordsLineD W border ls ctr EXTRA_SPACES,
                 headerBotLine W border EXTRA_SPACES]
              else []
          | none => []) ++
         rows.map (fun r => wordsLineD W border r ctr EXTRA_SPACES))) ++
      [lastLine W border EXTRA_SPACES] := by
  unfold tableLines
  simp

theorem pyListComp_err_head {α β : Type} (a : α) (as : List α)
    (f : α → Except PyErr β) (e : PyErr) (h : f a = Except.error e) :
    pyListComp (a :: as) f = Except.error e := by
  rw [pyListComp, h, bind_error]

/-! ### The claims -/

/-- Claim C3, counterexample: `paddedWord "ab" 3 centered` pads to inner
width 5 with leftover 3 (odd), yet CPython places the extra space on the
left — the result is `"  ab "`, not the spec's right-favouring centring. -/
theorem paddedWord_center_counterexample :
    paddedWord ['a', 'b'] 3 true 2 = [' ', ' ', 'a', 'b', ' '] ∧
    paddedWord ['a', 'b'] 3 true 2 ≠ specCenterRight ['a', 'b'] (3 + 2) := by
  decide

/-- Claim C3, amended: for a word fitting the inner width
`column_width + extra_spaces`, centred `paddedWord` is the word surrounded
by space fill whose left and right margins sum to the leftover; an even
leftover splits evenly, and an odd leftover puts the extra space on the
right exactly when the inner width is even (CPython's convention), on the
left when it is odd. -/
theorem paddedWord_center_spec (word : Str) (m e : Nat)
    (h : word.length ≤ m + e) :
    ∃ l r, paddedWord word m true e = spaces l ++ word ++ spaces r ∧
      l + r = (m + e) - word.length ∧
      (((m + e) - word.length) % 2 = 0 → l = r) ∧
      (((m + e) - word.length) % 2 = 1 →
        ((m + e) % 2 = 0 → r = l + 1) ∧ ((m + e) % 2 = 1 → l = r + 1)) := by
  by_cases hw : m + e ≤ word.length
  · have hEq : word.length = m + e := Nat.le_antisymm h hw
    refine ⟨0, 0, ?_, by omega, fun _ => rfl, fun hodd => by omega⟩
    simp [paddedWord, pyCenter, hw, spaces]
  · by_cases hpar : (m + e - word.length) % 2 = 1 ∧ (m + e) % 2 = 1
    · refine ⟨(m + e - word.length) / 2 + 1,
        (m + e - word.length) - ((m + e - word.length) / 2 + 1),
        ?_, by omega, by omega, fun _ => ⟨fun h0 => by omega, fun _ => by omega⟩⟩
      simp only [paddedWord, pyCenter, if_neg hw, if_pos hpar, if_true]
    · refine ⟨(m + e - word.length) / 2,
        (m + e - word.length) - (m + e - word.length) / 2,
        ?_, by omega, by omega, ?_⟩
      · simp only [paddedWord, pyCenter, if_neg hw, if_neg hpar]
        simp
      · intro hodd
        have hwid : (m + e) % 2 = 0 := by
          rcases Nat.mod_two_eq_zero_or_one (m + e) with h2 | h2
          · exact h2
          · exact absurd ⟨hodd, h2⟩ hpar
        exact ⟨fun _ => by omega, fun h1 => by omega⟩

/-- Claim C3, witness: the amended centring law applied at word `"ab"`,
column width 3, extra 2. -/
theorem paddedWord_center_spec_witness :
    ∃ l r, paddedWord ['a', 'b'] 3 true 2 = spaces l ++ ['a', 'b'] ++ spaces r ∧
      l + r = (3 + 2) - 2 ∧
      (((3 + 2) - 2) % 2 = 0 → l = r) ∧
      (((3 + 2) - 2) % 2 = 1 →
        ((3 + 2) % 2 = 0 → r = l + 1) ∧ ((3 + 2) % 2 = 1 → l = r + 1)) :=
  paddedWord_center_spec ['a', 'b'] 3 2 (by decide)

/-- Claim C4: left-aligned `paddedWord` coincides, for every word, column
width and `extra_spaces`, with the spec's policy: right-justify to
`min(extra_spaces/2 + len(word), column_width + extra_spaces)`, then
left-justify to `column_width + extra_spaces`. -/
theorem paddedWord_left_spec (word : Str) (cw e : Nat) :
    paddedWord word cw false e = specLeftPad word cw e := rfl

/-- Claim C6: on `rows = [["a","bb"],["ccc","d"]]` without labels and
left-aligned, the computed column widths are `[3, 2]`, the top border is
`┌─────┬────┐` and the first data line is `│ a   │ bb │`. -/
theorem make_table_example :
    colWidths [[['a'], ['b', 'b']], [['c', 'c', 'c'], ['d']]] none =
      Except.ok [3, 2] ∧
    (make_table [[['a'], ['b', 'b']], [['c', 'c', 'c'], ['d']]] none false).map
        (fun t => ((splitNl t).getD 0 [], (splitNl t).getD 1 [])) =
      Except.ok ("┌─────┬────┐".toList, "│ a   │ bb │".toList) := by
  exact ⟨rfl, rfl⟩

/-- Claim C1: for a non-empty rectangular table of single-line cells, the
render splits on newline into `rows.length + 2` lines without labels, and
into `rows.length + 4` lines with a non-empty matching single-line labels
list. -/
theorem make_table_line_count (r0 : List Str) (rest : List (List Str)) (c : Bool)
    (hrect : ∀ r ∈ r0 :: rest, r.length = r0.length)
    (hc : ∀ r ∈ r0 :: rest, ∀ cell ∈ r, '\n' ∉ cell) :
    (make_table (r0 :: rest) none c).map (fun t => (splitNl t).length) =
      Except.ok ((r0 :: rest).length + 2) ∧
    (∀ ls : List Str, ls ≠ [] → ls.length = r0.length → (∀ l ∈ ls, '\n' ∉ l) →
      (make_table (r0 :: rest) (some ls) c).map (fun t => (splitNl t).length) =
        Except.ok ((r0 :: rest).length + 4)) := by
  constructor
  · rw [make_table_ok r0 rest none c hrect (fun ls h => Option.noConfusion h)]
    show Except.ok ((splitNl (joinNl (tableLines _ _ _ _))).length) = _
    rw [splitNl_joinNl _ (tableLines_ne_nil _ _ _ _)
      (tableLines_no_nl _ _ _ _ hc (fun ls h => Option.noConfusion h)),
      tableLines_length]
    rfl
  · intro ls hne hlen hnl
    have hlab' : ∀ ls', some ls = some ls' → ls'.length = r0.length := by
      intro ls' h
      injection h with h'
      rw [← h']
      exact hlen
    have hnl' : ∀ ls', some ls = some ls' → ∀ l ∈ ls', '\n' ∉ l := by
      intro ls' h
      injection h with h'
      rw [← h']
      exact hnl
    rw [make_table_ok r0 rest (some ls) c hrect hlab']
    show Except.ok ((splitNl (joinNl (tableLines _ _ _ _))).length) = _
    rw [splitNl_joinNl _ (tableLines_ne_nil _ _ _ _)
      (tableLines_no_nl _ _ _ _ hc hnl'), tableLines_length]
    dsimp only
    rw [if_pos (List.length_pos.mpr hne)]

/-- Claim C1, witness: one row `[["a"]]` gives 3 lines without labels and 5
lines with the labels `["b"]`. -/
theorem make_table_line_count_witness :
    (make_table [[['a']]] none false).map (fun t => (splitNl t).length) =
      Except.ok 3 ∧
    (make_table [[['a']]] (some [['b']]) false).map (fun t => (splitNl t).length) =
      Except.ok 5 := by
  have h := make_table_line_count [['a']] [] false (by decide) (by decide)
  exact ⟨h.1, h.2 [['b']] (by decide) (by decide) (by decide)⟩

/-- Claim C2, counterexample: one row with a matching non-empty labels list
renders as 5 lines, outside the claimed range `N+1 .. N+3 = 2 .. 4`. -/
theorem make_table_range_counterexample :
    (make_table [[['a']]] (some [['b']]) false).map
        (fun t => (splitNl t).length) = Except.ok 5 ∧
    ¬ (5 ≤ 1 + 3) := by
  exact ⟨rfl, by decide⟩

/-- Claim C2, amended: the render of a valid input splits into between
`N+2` and `N+4` newline-joined lines (`N+2` without a header, `N+4` with
one), not `N+1` to `N+3`. -/
theorem make_table_line_count_range (r0 : List Str) (rest : List (List Str))
    (labels : Option (List Str)) (c : Bool)
    (hrect : ∀ r ∈ r0 :: rest, r.length = r0.length)
    (hlab : ∀ ls, labels = some ls → ls.length = r0.length)
    (hc : ∀ r ∈ r0 :: rest, ∀ cell ∈ r, '\n' ∉ cell)
    (hlnl : ∀ ls, labels = some ls → ∀ l ∈ ls, '\n' ∉ l) :
    ∃ k, (make_table (r0 :: rest) labels c).map (fun t => (splitNl t).length) =
        Except.ok k ∧
      (r0 :: rest).length + 2 ≤ k ∧ k ≤ (r0 :: rest).length + 4 := by
  refine ⟨(tableLines (r0 :: rest) labels c (widthsD (r0 :: rest) labels)).length,
    ?_, ?_, ?_⟩
  · rw [make_table_ok r0 rest labels c hrect hlab]
    show Except.ok ((splitNl (joinNl (tableLines _ _ _ _))).length) = _
    rw [splitNl_joinNl _ (tableLines_ne_nil _ _ _ _)
      (tableLines_no_nl _ _ _ _ hc hlnl)]
  · rw [tableLines_length]
    cases labels with
    | none => dsimp only; omega
    | some ls => dsimp only; split <;> omega
  · rw [tableLines_length]
    cases labels with
    | none => dsimp only; omega
    | some ls => dsimp only; split <;> omega

/-- Claim C2, amended, witness: the bounds hold at `[["a"]]` without
labels. -/
theorem make_table_line_count_range_witness :
    ∃ k, (make_table [[['a']]] none false).map (fun t => (splitNl t).length) =
        Except.ok k ∧
      [[['a']]].length + 2 ≤ k ∧ k ≤ [[['a']]].length + 4 :=
  make_table_line_count_range [['a']] [] none false (by decide)
    (fun ls h => nomatch h) (by decide) (fun ls h => nomatch h)

/-- Claim C5: the width of column `i` is the maximum cell length of that
column over all rows, folded with the label's length when labels are
supplied. -/
theorem colWidths_spec (r0 : List Str) (rest : List (List Str))
    (labels : Option (List Str))
    (hrect : ∀ r ∈ r0 :: rest, r.length = r0.length)
    (hlab : ∀ ls, labels = some ls → ls.length = r0.length) :
    colWidths (r0 :: rest) labels =
      Except.ok ((List.range r0.length).map (fun i =>
        max (listMax ((r0 :: rest).map (fun r => (r.getD i []).length)))
            (match labels with
             | none => 0
             | some ls => (ls.getD i []).length))) := by
  rw [colWidths_ok r0 rest labels hrect hlab]
  rfl

/-- Claim C5, witness: rows `[["ab"],["c"]]` with labels `["xyz"]` give the
single column width `max (max 2 1) 3 = 3`. -/
theorem colWidths_spec_witness :
    colWidths [[['a', 'b']], [['c']]] (some [['x', 'y', 'z']]) =
      Except.ok [3] := by
  have h := colWidths_spec [['a', 'b']] [[['c']]] (some [['x', 'y', 'z']])
    (by decide) (fun ls hl => by cases hl; rfl)
  exact h.trans (by rfl)

/-- Claim C7: every line of a successful render — borders, header lines and
data lines — has the same character length. -/
theorem make_table_lines_uniform (r0 : List Str) (rest : List (List Str))
    (labels : Option (List Str)) (c : Bool)
    (hrect : ∀ r ∈ r0 :: rest, r.length = r0.length)
    (hlab : ∀ ls, labels = some ls → ls.length = r0.length)
    (hc : ∀ r ∈ r0 :: rest, ∀ cell ∈ r, '\n' ∉ cell)
    (hlnl : ∀ ls, labels = some ls → ∀ l ∈ ls, '\n' ∉ l) :
    ∃ t, make_table (r0 :: rest) labels c = Except.ok t ∧
      ∀ l1 ∈ splitNl t, ∀ l2 ∈ splitNl t, l1.length = l2.length := by
  refine ⟨_, make_table_ok r0 rest labels c hrect hlab, ?_⟩
  rw [splitNl_joinNl _ (tableLines_ne_nil _ _ _ _)
    (tableLines_no_nl _ _ _ _ hc hlnl)]
  intro l1 h1 l2 h2
  rw [tableLines_uniform (r0 :: rest) labels c l1 h1,
    tableLines_uniform (r0 :: rest) labels c l2 h2]

/-- Claim C7, witness: the property applied to `[["a","bb"],["ccc","d"]]`
with labels `["X","Y"]`, centred. -/
theorem make_table_lines_uniform_witness :
    ∃ t, make_table [[['a'], ['b', 'b']], [['c', 'c', 'c'], ['d']]]
        (some [['X'], ['Y']]) true = Except.ok t ∧
      ∀ l1 ∈ splitNl t, ∀ l2 ∈ splitNl t, l1.length = l2.length :=
  make_table_lines_uniform [['a'], ['b', 'b']] [[['c', 'c', 'c'], ['d']]]
    (some [['X'], ['Y']]) true (by decide) (fun ls h => by cases h; rfl)
    (by decide) (fun ls h => by cases h; decide)

/-- Claim C8: the rendered string consists of each emitted line above the
bottom border followed by a newline character, then the bottom border,
which no newline follows (it contains none). -/
theorem make_table_newlines (r0 : List Str) (rest : List (List Str))
    (labels : Option (List Str)) (c : Bool)
    (hrect : ∀ r ∈ r0 :: rest, r.length = r0.length)
    (hlab : ∀ ls, labels = some ls → ls.length = r0.length) :
    ∃ above : List Str,
      above ++ [lastLine (widthsD (r0 :: rest) labels) border EXTRA_SPACES] =
        tableLines (r0 :: rest) labels c (widthsD (r0 :: rest) labels) ∧
      make_table (r0 :: rest) labels c =
        Except.ok ((above.map (fun l => l ++ ['\n'])).flatten ++
          lastLine (widthsD (r0 :: rest) labels) border EXTRA_SPACES) ∧
      '\n' ∉ lastLine (widthsD (r0 :: rest) labels) border EXTRA_SPACES := by
  refine ⟨_, (tableLines_eq_concat (r0 :: rest) labels c
    (widthsD (r0 :: rest) labels)).symm, ?_, nl_not_mem_lastLine _ _⟩
  rw [make_table_ok r0 rest labels c hrect hlab, tableLines_eq_concat,
    joinNl_concat]

/-- Claim C8, witness: the newline layout applied to `[["a"]]` without
labels. -/
theorem make_table_newlines_witness :
    ∃ above : List Str,
      above ++ [lastLine (widthsD [[['a']]] none) border EXTRA_SPACES] =
        tableLines [[['a']]] none false (widthsD [[['a']]] none) ∧
      make_table [[['a']]] none false =
        Except.ok ((above.map (fun l => l ++ ['\n'])).flatten ++
          lastLine (widthsD [[['a']]] none) border EXTRA_SPACES) ∧
      '\n' ∉ lastLine (widthsD [[['a']]] none) border EXTRA_SPACES :=
  make_table_newlines [['a']] [] none false (by decide) (fun ls h => nomatch h)

/-- Claim C9: with zero columns the border-line and content-line generators
return the empty string, and on rows of zero cells `make_table` still
renders the usual `rows.length + 2` (now empty) lines. -/
theorem make_table_zero_columns (rest : List (List Str)) (c : Bool)
    (words : List Str) (ctr : Bool) (e : Nat)
    (hrect : ∀ r ∈ ([] : List Str) :: rest, r.length = 0) :
    firstLine [] border e = [] ∧
    wordsLine [] border words ctr e = Except.ok [] ∧
    (make_table (([] : List Str) :: rest) none c).map (fun t => splitNl t) =
      Except.ok (List.replicate ((([] : List Str) :: rest).length + 2) ([] : Str)) := by
  refine ⟨rfl, rfl, ?_⟩
  have hrect' : ∀ r ∈ ([] : List Str) :: rest, r.length = ([] : List Str).length := by
    simpa using hrect
  have hc : ∀ r ∈ ([] : List Str) :: rest, ∀ cell ∈ r, '\n' ∉ cell := by
    intro r hr cell hcell
    have : r = [] := List.length_eq_zero.mp (hrect r hr)
    rw [this] at hcell
    simp at hcell
  rw [make_table_ok [] rest none c hrect' (fun ls h => Option.noConfusion h)]
  show Except.ok (splitNl (joinNl (tableLines _ _ _ _))) = _
  rw [splitNl_joinNl _ (tableLines_ne_nil _ _ _ _)
    (tableLines_no_nl _ _ _ _ hc (fun ls h => Option.noConfusion h))]
  have hW : widthsD (([] : List Str) :: rest) none = [] := rfl
  rw [tableLines_eq_concat, hW]
  have hmap : ∀ rs : List (List Str),
      rs.map (fun r => wordsLineD [] border r c EXTRA_SPACES) =
        List.replicate rs.length ([] : Str) := by
    intro rs
    induction rs with
    | nil => rfl
    | cons a as ih => simp [ih, wordsLineD, List.replicate_succ]
  rw [hmap]
  refine congrArg Except.ok ?_
  show (([] : Str) :: (([] : List Str) ++
      List.replicate (([] :: rest).length) ([] : Str))) ++ [([] : Str)] =
    List.replicate ((([] : List Str) :: rest).length + 2) ([] : Str)
  rw [List.nil_append, ← List.replicate_succ, ← List.replicate_succ']

/-- Claim C9, witness: the zero-column behaviour at `rows = [[], []]`. -/
theorem make_table_zero_columns_witness :
    firstLine [] border 7 = [] ∧
    wordsLine [] border [['x']] true 7 = Except.ok [] ∧
    (make_table [([] : List Str), []] none false).map (fun t => splitNl t) =
      Except.ok (List.replicate ([([] : List Str), []].length + 2) ([] : Str)) :=
  make_table_zero_columns [[]] false [['x']] true 7 (by decide)

/-- Claim C10: with at least one column, supplying the empty labels list
makes the per-column width computation read `labels_length[i]` out of range,
so `make_table` raises `IndexError` during width computation — before the
header-emission branch (which would skip empty labels) is ever reached. -/
theorem make_table_empty_labels (r0 : List Str) (rest : List (List Str))
    (c : Bool) (hpos : 0 < r0.length)
    (hrect : ∀ r ∈ r0 :: rest, r.length = r0.length) :
    colWidths (r0 :: rest) (some []) = Except.error PyErr.indexError ∧
    make_table (r0 :: rest) (some []) c = Except.error PyErr.indexError := by
  have hcw : colWidths (r0 :: rest) (some []) = Except.error PyErr.indexError := by
    unfold colWidths
    rw [show pyGet (r0 :: rest) 0 = Except.ok r0 from rfl, bind_ok]
    dsimp only
    rw [colLengths0_ok (r0 :: rest) r0.length
      (fun r hr => Nat.le_of_eq (hrect r hr).symm), bind_ok]
    obtain ⟨k, hk⟩ : ∃ k, r0.length = k + 1 := ⟨r0.length - 1, by omega⟩
    rw [hk, List.range_succ_eq_map]
    apply pyListComp_err_head
    rw [pyGet_ok _ 0 0 (by simp), bind_ok]
    have hll : labelsLength (some ([] : List Str)) (k + 1) = ([] : List Nat) := rfl
    rw [hll, pyGet_err ([] : List Nat) 0 (Nat.le_refl 0), bind_error]
  refine ⟨hcw, ?_⟩
  unfold make_table
  rw [hcw, bind_error]

/-- Claim C10, witness: `make_table [["a"]]` with `labels = []` fails with
`IndexError` already inside the width computation. -/
theorem make_table_empty_labels_witness :
    colWidths [[['a']]] (some []) = Except.error PyErr.indexError ∧
    make_table [[['a']]] (some []) false = Except.error PyErr.indexError :=
  make_table_empty_labels [['a']] [] false (by decide) (by decide)
